import Mathlib

/-!
Shallow embedding of src/net/ipv4/tp_timer.c (telemetry probe: clock
calibrator, fixed-capacity event log, payload scanner), together with
theorems settling the spec claims.  C machine integers are modelled as
Nat/Int with explicit reductions modulo 2^w where the C code can wrap.
Loops of the C source are modelled as fuel-bounded structural recursions;
the fuel constants are chosen far beyond any iteration count the loops
can reach on the inputs the theorems speak about.
-/

set_option maxHeartbeats 2000000

namespace TpTimer

/-! Constants from tp_timer.c -/

def TP_TIMER_SPACE : Nat := 500000

def TP_TIMER_CAL : Nat := 100

def TP_TIMER_TRIMMEDMEAN : Nat := 5

/-! Machine-integer helpers.  U64/U32/U16 are the value counts of the
C types unsigned long / unsigned int / unsigned short on x86-64. -/

def U64 : Nat := 18446744073709551616

def U32 : Nat := 4294967296

def U16 : Nat := 65536

/-- Reinterpret an unsigned 64-bit value as a signed long (two's complement). -/
def toSigned64 (x : Nat) : Int :=
  if x % U64 < 9223372036854775808 then ((x % U64 : Nat) : Int)
  else ((x % U64 : Nat) : Int) - (U64 : Int)

/-- Wrapping subtraction on unsigned long: (a - b) mod 2^64. -/
def usub64 (a b : Nat) : Nat := (a + (U64 - b % U64)) % U64

/-- Truncate an unsigned 64-bit value to a signed 32-bit int (two's complement). -/
def toInt32 (x : Nat) : Int :=
  if x % U32 < 2147483648 then ((x % U32 : Nat) : Int)
  else ((x % U32 : Nat) : Int) - (U32 : Int)

/-- Convert a C int value used as an array index into the unsigned long
offset actually formed by the pointer arithmetic (mod 2^64). -/
def aIdx (i : Int) : Nat := (i % (U64 : Int)).toNat

/-! ## Calibration (statics cal_usec, cal_mean, cal_list, cal_count)

The calibration sample window cal_list is a 100-entry array of unsigned
long; reads outside the array return 0 and writes outside it are dropped
(List.set is the identity beyond the length), a deterministic model of
the out-of-array accesses cal_sort can perform on adversarial windows. -/

structure CalState where
  cal_usec : Nat
  cal_mean : Nat
  cal_list : List Nat
  cal_count : Nat
deriving DecidableEq

/-- Initial value of the static calibration globals (zero-initialised). -/
def calInit : CalState :=
  { cal_usec := 0, cal_mean := 0, cal_list := List.replicate TP_TIMER_CAL 0, cal_count := 0 }

/-- Fuel bound for the scanning loops in cal_sort. -/
def SCAN_FUEL : Nat := U64

/-- Fuel bound for the recursion of cal_sort. -/
def CAL_FUEL : Nat := U64

/-- The swap x = a[i]; a[i] = a[j]; a[j] = x from cal_sort. -/
def aSwap (a : List Nat) (i j : Nat) : List Nat :=
  (a.set i (a.getD j 0)).set j (a.getD i 0)

/-- The C loop do { ++i; } while (a[i] < v); with i an unsigned long. -/
def scanUp (a : List Nat) (v : Nat) : Nat → Nat → Nat
  | i, 0 => (i + 1) % U64
  | i, fuel + 1 =>
    if a.getD ((i + 1) % U64) 0 < v then scanUp a v ((i + 1) % U64) fuel
    else (i + 1) % U64

/-- The C loop do { --j; } while (a[j] > v); with j an unsigned long. -/
def scanDown (a : List Nat) (v : Nat) : Nat → Nat → Nat
  | j, 0 => (j + (U64 - 1)) % U64
  | j, fuel + 1 =>
    if a.getD ((j + (U64 - 1)) % U64) 0 > v then scanDown a v ((j + (U64 - 1)) % U64) fuel
    else (j + (U64 - 1)) % U64

/-- The while(1) partition loop of cal_sort: scan up, scan down, break
once i >= j, otherwise swap a[i] and a[j] and continue. -/
def partitionLoop (v : Nat) : List Nat → Nat → Nat → Nat → List Nat × Nat × Nat
  | a, i, j, 0 => (a, i, j)
  | a, i, j, fuel + 1 =>
    let i2 := scanUp a v i SCAN_FUEL
    let j2 := scanDown a v j SCAN_FUEL
    if i2 ≥ j2 then (a, i2, j2)
    else partitionLoop v (aSwap a i2 j2) i2 j2 fuel

/-- cal_sort(a, m, n): the recursive in-place partition sort of
tp_timer.c lines 132-154.  m and n are C ints; i and j are unsigned
longs, so i = m-1 wraps for m = 0 and the recursive calls truncate the
unsigned scan positions back to int. -/
def cal_sort : List Nat → Int → Int → Nat → List Nat
  | a, _, _, 0 => a
  | a, m, n, fuel + 1 =>
    if n > m then
      let v := a.getD (aIdx n) 0
      let r := partitionLoop v a (aIdx (m - 1)) (aIdx n) SCAN_FUEL
      let a2 := aSwap r.1 r.2.1 (aIdx n)
      let a3 := cal_sort a2 m (toInt32 r.2.2) fuel
      cal_sort a3 (toInt32 ((r.2.1 + 1) % U64)) n fuel
    else a

/-- Trim bounds of the trimmed-mean loop: (int)(100/100.0*5) = 5 and
(int)(100/100.0*95) = 95; both double computations are exact. -/
def TRIM_LO : Nat := 5

def TRIM_HI : Nat := 95

/-- cal_start: record the baseline microsecond timestamp unless the
calibration window has already converged.  The gettimeofday result is
passed in as now_usec. -/
def cal_start (now_usec : Nat) (s : CalState) : CalState :=
  if s.cal_count ≥ TP_TIMER_CAL then s else { s with cal_usec := now_usec }

/-- cal_stop(usec): append the elapsed overhead usec - cal_usec to the
sample window; on the window-filling call sort the window, accumulate
the entries from index TRIM_LO up to (excluding) TRIM_HI into cal_mean
(the running sum wraps as an unsigned long), divide by the number of
accumulated entries, and bump cal_count past TP_TIMER_CAL so that the
calibration state is never touched again. -/
def cal_stop (usec : Nat) (s : CalState) : CalState :=
  if s.cal_count ≥ TP_TIMER_CAL then s
  else
    let lst := s.cal_list.set s.cal_count (usub64 usec s.cal_usec)
    let cnt := s.cal_count + 1
    if cnt = TP_TIMER_CAL then
      let sorted := cal_sort lst 0 ((TP_TIMER_CAL : Int) - 1) CAL_FUEL
      let msum := (s.cal_mean +
        ((List.range (TRIM_HI - TRIM_LO)).map (fun k => sorted.getD (TRIM_LO + k) 0)).sum) % U64
      { cal_usec := s.cal_usec, cal_mean := msum / (TRIM_HI - TRIM_LO),
        cal_list := sorted, cal_count := cnt + 1 }
    else
      { s with cal_list := lst, cal_count := cnt }

/-- Feed a list of raw cal_stop timestamps to the calibrator in order. -/
def calFeed (samples : List Nat) (s : CalState) : CalState :=
  samples.foldl (fun st u => cal_stop u st) s

/-- The calibrator has converged (the collecting phase is over). -/
def calConverged (s : CalState) : Prop := s.cal_count ≥ TP_TIMER_CAL

instance (s : CalState) : Decidable (calConverged s) := by
  unfold calConverged; infer_instance

/-! ## Event log (struct tp_timer_data entries in tp_timer_space, count
in tp_timer_count)

The vmalloc'ed array is modelled as a total function from slot index to
record; tp_timer_init zeroes it, so the initial state maps every slot to
the zero record. -/

/-- One struct tp_timer_data entry, with the C field types mapped to
their value ranges: unsigned short and unsigned int fields as Nat,
the timeval fields (time_t / suseconds_t, both long) as Int. -/
structure TpRec where
  id : Nat
  ts_sec : Int
  ts_usec : Int
  seq : Nat
  threadnr : Nat
  timesrepeated : Nat
  count : Nat
deriving DecidableEq

/-- The all-zero record produced by memset. -/
def zeroRec : TpRec := ⟨0, 0, 0, 0, 0, 0, 0⟩

instance : Inhabited TpRec := ⟨zeroRec⟩

/-- The log globals: tp_timer_space (slot array) and tp_timer_count. -/
structure TpState where
  space : Nat → TpRec
  count : Nat

/-- All mutable globals of the module: the log plus the calibration state. -/
structure Sys where
  log : TpState
  cal : CalState

/-- A gettimeofday result: seconds as a long, microseconds in [0, 10^6). -/
structure Timeval where
  sec : Int
  usec : Nat
deriving DecidableEq

instance : Inhabited Timeval := ⟨⟨0, 0⟩⟩

/-- Result of an append: written, or rejected because the log is full. -/
inductive TpResult
  | ok
  | logFull
deriving DecidableEq

/-- State after tp_timer_init: space zeroed, count zero, calibration
globals at their static initial values. -/
def initSys : Sys :=
  { log := { space := fun _ => zeroRec, count := 0 }, cal := calInit }

/-- tp_timer(id, seq, threadnr, timesrepeated): the append hot path of
tp_timer.c lines 325-352.  If the log is full it only reports overflow;
otherwise it fills the next slot (storing the current count as the
ordinal), takes a timestamp (passed in as now), feeds its microsecond
part to cal_stop, subtracts the possibly-just-frozen cal_mean from
tv_usec with plain wrapping long arithmetic (no borrow into seconds),
and increments the count.  The C parameters short id / short
timesrepeated land in unsigned short fields, and the int-typed scanner
count lands in the short parameter, so both are reduced mod 2^16; the
unsigned int parameters are reduced mod 2^32 (identity for any value a
C caller can pass). -/
def tp_timer (id : Int) (seq threadnr : Nat) (timesrepeated : Int) (now : Timeval)
    (sys : Sys) : TpResult × Sys :=
  if sys.log.count ≥ TP_TIMER_SPACE then (.logFull, sys)
  else
    let cal2 := cal_stop now.usec sys.cal
    let r : TpRec :=
      { id := (id % (U16 : Int)).toNat
        ts_sec := now.sec
        ts_usec := toSigned64 (usub64 now.usec cal2.cal_mean)
        seq := seq % U32
        threadnr := threadnr % U32
        timesrepeated := (timesrepeated % (U16 : Int)).toNat
        count := sys.log.count }
    (.ok,
      { log :=
          { space := fun j => if j = sys.log.count then r else sys.log.space j
            count := sys.log.count + 1 }
        cal := cal2 })

/-- snapshot_len: the number of valid entries (tp_timer_count). -/
def snapshot_len (sys : Sys) : Nat := sys.log.count

/-- get(i): what seq_show exposes for position i — the stored record,
or nothing when the position is at or beyond the count (seq_show then
prints nothing). -/
def tp_get (sys : Sys) (i : Nat) : Option TpRec :=
  if i < sys.log.count then some (sys.log.space i) else none

/-- tp_release: the reader-close reset; memset the whole array to zero
and set tp_timer_count to 0 (calibration state is untouched). -/
def tp_release (sys : Sys) : Sys :=
  { sys with log := { space := fun _ => zeroRec, count := 0 } }

/-- One call to the direct append API, with the timestamp gettimeofday
would return for it. -/
structure AppendInput where
  id : Int
  seq : Nat
  threadnr : Nat
  timesrepeated : Int
  now : Timeval
deriving DecidableEq

instance : Inhabited AppendInput := ⟨⟨0, 0, 0, 0, default⟩⟩

/-- Run a sequence of tp_timer calls in order. -/
def appendCalls (calls : List AppendInput) (sys : Sys) : Sys :=
  calls.foldl (fun s c => (tp_timer c.id c.seq c.threadnr c.timesrepeated c.now s).2) sys

/-! ## Payload scanner (tp_timer_data, lines 215-274)

The byte buffer is modelled as a list of byte values with the scanned
region starting at address 0; tail is the exclusive end boundary passed
by the callers (skb->tail, the address one past the last data byte).
The 32-bit loads are little-endian reads of four consecutive bytes;
bytes outside the modelled memory read as 0. -/

/-- Little-endian 32-bit read of bytes p..p+3 (0 beyond the list). -/
def word32At (buf : List Nat) (p : Nat) : Nat :=
  buf.getD p 0 + 256 * buf.getD (p + 1) 0 + 65536 * buf.getD (p + 2) 0 +
    16777216 * buf.getD (p + 3) 0

/-- The sentinel test of the inner for loop: the two consecutive 32-bit
words at byte offset p are both all-ones. -/
def sentinelAt (buf : List Nat) (p : Nat) : Prop :=
  word32At buf p = 4294967295 ∧ word32At buf (p + 4) = 4294967295

instance (buf : List Nat) (p : Nat) : Decidable (sentinelAt buf p) := by
  unfold sentinelAt; infer_instance

/-- One emitted run: the (seq, threadnr, count) arguments the scanner
passes to tp_timer. -/
structure Emission where
  seq : Nat
  threadnr : Nat
  count : Nat
deriving DecidableEq

/-- The sentinel search loop (lines 227-243): probe byte position p; on
a sentinel stop there; otherwise advance one byte and, only after
advancing, abort as malformed when the position passes tail. -/
def findSentinel (buf : List Nat) (tailp : Nat) : Nat → Nat → Option Nat
  | _, 0 => none
  | p, fuel + 1 =>
    if sentinelAt buf p then some p
    else if p + 1 > tailp then none
    else findSentinel buf tailp (p + 1) fuel

/-- The sentinel extent loop (lines 246-249): advance one byte at a time
while both words remain all-ones; returns the first position where the
pair test fails. -/
def sentinelExtent (buf : List Nat) : Nat → Nat → Nat
  | p, 0 => p
  | p, fuel + 1 => if sentinelAt buf p then sentinelExtent buf (p + 1) fuel else p

/-- The run-aggregation loop (lines 258-273) starting with the loop
state (lastSeq, lastThreadnr, count): while the two words of one more
pair fit below tail - 8, read (threadnr, seq) at the current position,
close out the run on a change (emitting it unless its count is zero),
advance 16 bytes; once the walk stops, emit the open run
unconditionally. -/
def aggLoop (buf : List Nat) (tailp : Nat) : Nat → Nat → Nat → Nat → Nat → List Emission
  | _, lastSeq, lastThreadnr, count, 0 => [⟨lastSeq, lastThreadnr, count⟩]
  | q, lastSeq, lastThreadnr, count, fuel + 1 =>
    if q + 8 ≤ tailp then
      let tNew := word32At buf q
      let sNew := word32At buf (q + 4)
      if sNew ≠ lastSeq ∨ tNew ≠ lastThreadnr then
        (if count ≠ 0 then [⟨lastSeq, lastThreadnr, count⟩] else []) ++
          aggLoop buf tailp (q + 16) sNew tNew 1 fuel
      else
        aggLoop buf tailp (q + 16) lastSeq lastThreadnr (count + 1) fuel
    else [⟨lastSeq, lastThreadnr, count⟩]

/-- Fuel that strictly dominates the iteration counts of all three scan
loops on a buffer and boundary. -/
def scanFuel (buf : List Nat) (tailp : Nat) : Nat := buf.length + tailp + 16

/-- tp_timer_data as a pure function from buffer and boundary to its
emissions: none when the sentinel search aborts (malformed buffer, no
event logged), otherwise the list of (seq, threadnr, count) runs passed
to tp_timer in order.  After the sentinel extent overruns by one byte
the code steps back one byte and then skips the 8 sentinel bytes, so
payload starts at extent - 1 + 8 = extent + 7. -/
def tp_timer_data_run (buf : List Nat) (tailp : Nat) : Option (List Emission) :=
  match findSentinel buf tailp 0 (scanFuel buf tailp) with
  | none => none
  | some p0 =>
    some (aggLoop buf tailp (sentinelExtent buf p0 (scanFuel buf tailp) + 7) 0 0 0
      (scanFuel buf tailp))

/-- tp_timer_data at the state level: cal_start runs first (with the
baseline timestamp ts0), then the scan; each emitted run is appended
through tp_timer with the id of the probe point and the timestamp the
k-th gettimeofday would return. -/
def tp_timer_data_sys (id : Int) (buf : List Nat) (tailp : Nat) (ts0 : Nat)
    (tsf : Nat → Timeval) (sys : Sys) : Sys :=
  let sys1 : Sys := { sys with cal := cal_start ts0 sys.cal }
  match tp_timer_data_run buf tailp with
  | none => sys1
  | some ems =>
    (ems.foldl
      (fun (p : Sys × Nat) em =>
        ((tp_timer id em.seq em.threadnr (em.count : Int) (tsf p.2) p.1).2, p.2 + 1))
      (sys1, 0)).1

/-! ## Bounds-checked scanner variant

Same control flow as tp_timer_data, but every 32-bit load is checked
against the modelled memory extent: a read that begins less than four
bytes before the end of modelled memory returns none and the scan
reports a fault.  This realises, as a total function, the fact that the
C loops read words before comparing the position against tail. -/

/-- Checked little-endian 32-bit read: none unless all four bytes are
inside the modelled memory. -/
def read32? (buf : List Nat) (p : Nat) : Option Nat :=
  if p + 4 ≤ buf.length then some (word32At buf p) else none

/-- Outcome of the checked sentinel search. -/
inductive ProbeRes
  | found (p : Nat)
  | malformed
  | fault
deriving DecidableEq

/-- Checked sentinel search: the inner for loop reads the word at p and,
only when it is all-ones, the word at p + 4 (short-circuit, as in the C
for loop); any out-of-range read is a fault.  The malformed abort is
still only checked after advancing the position. -/
def findSentinelChecked (buf : List Nat) (tailp : Nat) : Nat → Nat → ProbeRes
  | _, 0 => .fault
  | p, fuel + 1 =>
    match read32? buf p with
    | none => .fault
    | some w0 =>
      if w0 = 4294967295 then
        match read32? buf (p + 4) with
        | none => .fault
        | some w1 =>
          if w1 = 4294967295 then .found p
          else if p + 1 > tailp then .malformed
          else findSentinelChecked buf tailp (p + 1) fuel
      else if p + 1 > tailp then .malformed
      else findSentinelChecked buf tailp (p + 1) fuel

/-- Checked sentinel extent loop; none on an out-of-range read. -/
def sentinelExtentChecked (buf : List Nat) : Nat → Nat → Option Nat
  | _, 0 => none
  | p, fuel + 1 =>
    match read32? buf p with
    | none => none
    | some w0 =>
      if w0 = 4294967295 then
        match read32? buf (p + 4) with
        | none => none
        | some w1 =>
          if w1 = 4294967295 then sentinelExtentChecked buf (p + 1) fuel else some p
      else some p

/-- Checked run-aggregation loop; each iteration reads both pair words. -/
def aggLoopChecked (buf : List Nat) (tailp : Nat) :
    Nat → Nat → Nat → Nat → Nat → Option (List Emission)
  | _, lastSeq, lastThreadnr, count, 0 => some [⟨lastSeq, lastThreadnr, count⟩]
  | q, lastSeq, lastThreadnr, count, fuel + 1 =>
    if q + 8 ≤ tailp then
      match read32? buf q, read32? buf (q + 4) with
      | some tNew, some sNew =>
        if sNew ≠ lastSeq ∨ tNew ≠ lastThreadnr then
          (aggLoopChecked buf tailp (q + 16) sNew tNew 1 fuel).map
            (fun rest => (if count ≠ 0 then [⟨lastSeq, lastThreadnr, count⟩] else []) ++ rest)
        else aggLoopChecked buf tailp (q + 16) lastSeq lastThreadnr (count + 1) fuel
      | _, _ => none
    else some [⟨lastSeq, lastThreadnr, count⟩]

/-- Overall outcome of the checked scan. -/
inductive ScanOutcome
  | ok (ems : List Emission)
  | malformed
  | fault
deriving DecidableEq

/-- The whole tp_timer_data scan with checked reads. -/
def tp_timer_data_checked (buf : List Nat) (tailp : Nat) : ScanOutcome :=
  match findSentinelChecked buf tailp 0 (scanFuel buf tailp) with
  | .fault => .fault
  | .malformed => .malformed
  | .found p0 =>
    match sentinelExtentChecked buf p0 (scanFuel buf tailp) with
    | none => .fault
    | some pe =>
      match aggLoopChecked buf tailp (pe + 7) 0 0 0 (scanFuel buf tailp) with
      | none => .fault
      | some ems => .ok ems

/-! ## Specification-side definitions (stated from the spec's words, to
be compared against the source-derived functions above) -/

/-- The sequence of (threadnr, seq) pairs the aggregation walk reads:
one pair per 16-byte stride while a pair still fits below the
boundary. -/
def walkedPairs (buf : List Nat) (tailp : Nat) : Nat → Nat → List (Nat × Nat)
  | _, 0 => []
  | q, fuel + 1 =>
    if q + 8 ≤ tailp then
      (word32At buf q, word32At buf (q + 4)) :: walkedPairs buf tailp (q + 16) fuel
    else []

/-- Run-length encoding as the spec words it: maintain the current
run's pair and count; on a differing pair close out the run, emitting
its tuple unless the count is zero; when the input is exhausted emit
the final open run unconditionally. -/
def rleSteps : List (Nat × Nat) → Nat × Nat → Nat → List Emission
  | [], (t, s), c => [⟨s, t, c⟩]
  | (tNew, sNew) :: rest, (t, s), c =>
    if sNew ≠ s ∨ tNew ≠ t then
      (if c ≠ 0 then [⟨s, t, c⟩] else []) ++ rleSteps rest (tNew, sNew) 1
    else rleSteps rest (t, s) (c + 1)

/-- Run-length encoding of a pair sequence from the scanner's initial
run state (pair (0,0), count 0). -/
def rleEmit (ps : List (Nat × Nat)) : List Emission := rleSteps ps (0, 0) 0

/-- The trimmed mean as the spec describes it: sort the samples with a
standard comparison sort, discard TRIM_LO from the low end and keep up
to index TRIM_HI, and average the remainder (integer division, as the
code's unsigned arithmetic does). -/
def trimmedMeanSpec (samples : List Nat) : Nat :=
  (((List.insertionSort (· ≤ ·) samples).drop TRIM_LO).take (TRIM_HI - TRIM_LO)).sum /
    (TRIM_HI - TRIM_LO)

/-! ## Concrete inputs used by the claims -/

/-- Little-endian byte encoding of a 32-bit word. -/
def w32bytes (w : Nat) : List Nat :=
  [w % 256, w / 256 % 256, w / 65536 % 256, w / 16777216 % 256]

/-- The spec's scanner example: two all-ones sentinel words, then the
pair (stream 1, seq 5) three times (each 4-word group carries the pair
in its first two words), then a final 2-word group (stream 1, seq 6). -/
def exampleBuf : List Nat :=
  ([4294967295, 4294967295, 1, 5, 0, 0, 1, 5, 0, 0, 1, 5, 0, 0, 1, 6].map w32bytes).flatten

/-- The spec's known calibration sample set 10, 20, ..., 1000. -/
def knownSamples : List Nat := (List.range TP_TIMER_CAL).map (fun k => 10 * (k + 1))

/-! ## Helper lemmas -/

lemma getD_mem_of_lt {α : Type} (l : List α) (i : Nat) (d : α) (h : i < l.length) :
    l.getD i d ∈ l := by
  rw [List.getD_eq_getElem l d h]
  exact List.getElem_mem h

lemma getD_lt_256 (buf : List Nat) (hb : ∀ b ∈ buf, b < 256) (i : Nat) :
    buf.getD i 0 < 256 := by
  rcases Nat.lt_or_ge i buf.length with h | h
  · exact hb _ (getD_mem_of_lt buf i 0 h)
  · rw [List.getD_eq_default buf 0 h]
    omega

/-- A 32-bit load can only see all-ones if all four of its bytes are
inside the buffer: any byte read past the end contributes 0 and caps the
word strictly below 0xffffffff. -/
lemma word32_ff_le (buf : List Nat) (q : Nat) (hb : ∀ b ∈ buf, b < 256)
    (h : word32At buf q = 4294967295) : q + 4 ≤ buf.length := by
  by_contra hq
  have h3 : buf.getD (q + 3) 0 = 0 := List.getD_eq_default buf 0 (by omega)
  have b0 := getD_lt_256 buf hb q
  have b1 := getD_lt_256 buf hb (q + 1)
  have b2 := getD_lt_256 buf hb (q + 2)
  unfold word32At at h
  omega

/-- A detected sentinel lies entirely inside the buffer. -/
lemma sentinel_in_range (buf : List Nat) (p : Nat) (hb : ∀ b ∈ buf, b < 256)
    (h : sentinelAt buf p) : p + 8 ≤ buf.length := by
  have := word32_ff_le buf (p + 4) hb h.2
  omega

/-- If no probe position carries a sentinel, the search loop runs to the
boundary and aborts, for every fuel. -/
lemma findSentinel_none (buf : List Nat) (tailp : Nat)
    (h : ∀ p, ¬ sentinelAt buf p) :
    ∀ (fuel p : Nat), findSentinel buf tailp p fuel = none := by
  intro fuel
  induction fuel with
  | zero => intro p; rfl
  | succ n ih =>
    intro p
    unfold findSentinel
    rw [if_neg (h p)]
    by_cases hp : p + 1 > tailp
    · rw [if_pos hp]
    · rw [if_neg hp]
      exact ih (p + 1)

/-- The aggregation loop emits exactly the run-length encoding (as the
spec words it) of the pair sequence it walks, for any loop state and any
fuel (the fuel-exhaustion fallbacks of the two sides agree). -/
lemma agg_eq (buf : List Nat) (tailp : Nat) :
    ∀ (fuel q s t c : Nat),
      aggLoop buf tailp q s t c fuel = rleSteps (walkedPairs buf tailp q fuel) (t, s) c := by
  intro fuel
  induction fuel with
  | zero => intro q s t c; rfl
  | succ n ih =>
    intro q s t c
    by_cases hq : q + 8 ≤ tailp
    · simp only [aggLoop, walkedPairs, if_pos hq, rleSteps]
      by_cases hne : word32At buf (q + 4) ≠ s ∨ word32At buf q ≠ t
      · rw [if_pos hne, if_pos hne, ih]
      · rw [if_neg hne, if_neg hne, ih]
    · simp only [aggLoop, walkedPairs, if_neg hq, rleSteps]

/-! ## Claim theorems: scanner -/

/-- Claim C5: for every well-formed buffer (sentinel found), the scanner
emits exactly the run-length encoding of the walked (stream_id,
sequence) pair sequence — a run is closed and emitted on a pair change
unless its count is zero, and the final open run is emitted
unconditionally at the end of the walk; and on the example buffer of two
all-ones words, (stream 1, seq 5) three times and (stream 1, seq 6)
once, the emissions are (seq 5, stream 1, x3) then (seq 6, stream 1,
x1). -/
theorem tp_scan_rle :
    (∀ (buf : List Nat) (tailp p0 : Nat),
        findSentinel buf tailp 0 (scanFuel buf tailp) = some p0 →
        tp_timer_data_run buf tailp =
          some (rleEmit (walkedPairs buf tailp
            (sentinelExtent buf p0 (scanFuel buf tailp) + 7) (scanFuel buf tailp)))) ∧
      tp_timer_data_run exampleBuf 64 = some [⟨5, 1, 3⟩, ⟨6, 1, 1⟩] := by
  constructor
  · intro buf tailp p0 h
    unfold tp_timer_data_run
    rw [h]
    exact congrArg some
      (agg_eq buf tailp (scanFuel buf tailp)
        (sentinelExtent buf p0 (scanFuel buf tailp) + 7) 0 0 0)
  · decide

/-- Witness for C5 at the example buffer. -/
theorem tp_scan_rle_witness :
    findSentinel exampleBuf 64 0 (scanFuel exampleBuf 64) = some 0 ∧
      tp_timer_data_run exampleBuf 64 =
        some (rleEmit (walkedPairs exampleBuf 64
          (sentinelExtent exampleBuf 0 (scanFuel exampleBuf 64) + 7)
          (scanFuel exampleBuf 64))) :=
  ⟨by decide, tp_scan_rle.1 exampleBuf 64 0 (by decide)⟩

/-- Claim C6: on a byte buffer whose boundary equals its extent and in
which no two-word all-ones sentinel occurs before the boundary, the scan
aborts (malformed) and performs no append: the run function yields none
and the event-log component of the state is unchanged (only cal_start
may have touched the calibration baseline). -/
theorem tp_scan_malformed (buf : List Nat) (tailp : Nat) (id : Int) (ts0 : Nat)
    (tsf : Nat → Timeval) (sys : Sys)
    (hb : ∀ b ∈ buf, b < 256) (hlen : buf.length = tailp)
    (hno : ∀ p, p < tailp → p + 8 ≤ tailp → ¬ sentinelAt buf p) :
    tp_timer_data_run buf tailp = none ∧
      (tp_timer_data_sys id buf tailp ts0 tsf sys).log = sys.log := by
  have hall : ∀ p, ¬ sentinelAt buf p := by
    intro p hs
    have h8 := sentinel_in_range buf p hb hs
    rw [hlen] at h8
    exact hno p (by omega) h8 hs
  have hrun : tp_timer_data_run buf tailp = none := by
    unfold tp_timer_data_run
    rw [findSentinel_none buf tailp hall _ 0]
  refine ⟨hrun, ?_⟩
  unfold tp_timer_data_sys
  rw [hrun]

/-- Witness for C6 at a 4-byte all-zero buffer. -/
theorem tp_scan_malformed_witness :
    tp_timer_data_run [0, 0, 0, 0] 4 = none ∧
      (tp_timer_data_sys 1 [0, 0, 0, 0] 4 0 (fun _ => ⟨0, 0⟩) initSys).log = initSys.log :=
  tp_scan_malformed [0, 0, 0, 0] 4 1 0 (fun _ => ⟨0, 0⟩) initSys (by decide) (by decide)
    (by decide)

/-- Claim C10: the sentinel-search loop reads the word(s) at a position
before comparing the advanced position against tail, so reads beginning
at positions up to and including tail are reachable: with modelled
memory ending exactly at the boundary the checked scan of an all-zero
buffer takes the none (fault) branch, and with eight 0xff bytes lying at
and beyond the boundary the search finds a sentinel at position tail
itself; the unchecked total model of the same all-zero buffer instead
reaches the strict post-read boundary abort. -/
theorem tp_scan_oob_read :
    tp_timer_data_checked [0, 0, 0, 0] 4 = .fault ∧
      findSentinelChecked [0, 0, 0, 0] 4 0 (scanFuel [0, 0, 0, 0] 4) = .fault ∧
      findSentinelChecked ([0, 0, 0, 0] ++ List.replicate 8 255) 4 0
        (scanFuel ([0, 0, 0, 0] ++ List.replicate 8 255) 4) = .found 4 ∧
      tp_timer_data_run [0, 0, 0, 0] 4 = none := by
  exact ⟨by decide, by decide, by decide, by decide⟩

/-! ## Claim theorems: event log -/

/-- The record a non-full tp_timer call stores carries exactly the call
arguments after the C parameter/field conversions, with the pre-call
count as its ordinal. -/
def storedMatches (r : TpRec) (c : AppendInput) (ord : Nat) : Prop :=
  r.id = (c.id % (U16 : Int)).toNat ∧ r.seq = c.seq % U32 ∧
    r.threadnr = c.threadnr % U32 ∧
    r.timesrepeated = (c.timesrepeated % (U16 : Int)).toNat ∧ r.count = ord

/-- Write-branch facts of tp_timer: below capacity the call reports ok,
increments the count, leaves every other slot alone, stores the
converted arguments and the pre-call count at the old count's slot, and
advances the calibration state through cal_stop. -/
lemma tp_timer_write (id : Int) (seq threadnr : Nat) (timesrepeated : Int)
    (now : Timeval) (sys : Sys) (h : sys.log.count < TP_TIMER_SPACE) :
    (tp_timer id seq threadnr timesrepeated now sys).1 = .ok ∧
      ((tp_timer id seq threadnr timesrepeated now sys).2).log.count = sys.log.count + 1 ∧
      (∀ j, j ≠ sys.log.count →
        ((tp_timer id seq threadnr timesrepeated now sys).2).log.space j = sys.log.space j) ∧
      storedMatches
        (((tp_timer id seq threadnr timesrepeated now sys).2).log.space sys.log.count)
        ⟨id, seq, threadnr, timesrepeated, now⟩ sys.log.count ∧
      ((tp_timer id seq threadnr timesrepeated now sys).2).cal = cal_stop now.usec sys.cal := by
  unfold tp_timer
  rw [if_neg (Nat.not_le.mpr h)]
  refine ⟨rfl, rfl, fun j hj => ?_, ?_, rfl⟩
  · simp only [if_neg hj]
  · simp [storedMatches]

/-- Claim C1: once the log holds TP_TIMER_SPACE records, every further
tp_timer call reports overflow and changes nothing — the whole state,
each stored slot and the count are all unchanged. -/
theorem tp_timer_log_full (id : Int) (seq threadnr : Nat) (timesrepeated : Int)
    (now : Timeval) (sys : Sys) (h : sys.log.count ≥ TP_TIMER_SPACE) :
    tp_timer id seq threadnr timesrepeated now sys = (.logFull, sys) ∧
      (∀ i, ((tp_timer id seq threadnr timesrepeated now sys).2).log.space i
        = sys.log.space i) ∧
      ((tp_timer id seq threadnr timesrepeated now sys).2).log.count = sys.log.count := by
  have he : tp_timer id seq threadnr timesrepeated now sys = (.logFull, sys) := by
    unfold tp_timer
    rw [if_pos h]
  exact ⟨he, fun i => by rw [he], by rw [he]⟩

/-- A log state at capacity, with zeroed slots, for the C1 witness. -/
def fullSys : Sys :=
  { log := { space := fun _ => zeroRec, count := TP_TIMER_SPACE }, cal := calInit }

/-- Witness for C1 at a capacity-count state. -/
theorem tp_timer_log_full_witness :
    fullSys.log.count ≥ TP_TIMER_SPACE ∧
      tp_timer 1 2 3 4 ⟨0, 0⟩ fullSys = (.logFull, fullSys) :=
  ⟨by decide, (tp_timer_log_full 1 2 3 4 ⟨0, 0⟩ fullSys (by decide)).1⟩

/-- Claim C9: after the reader-close reset the count is zero, every slot
of the storage is the zero record, and get(i) is none for every index. -/
theorem tp_release_resets (sys : Sys) (i : Nat) :
    snapshot_len (tp_release sys) = 0 ∧ (tp_release sys).log.space i = zeroRec ∧
      tp_get (tp_release sys) i = none := by
  refine ⟨rfl, rfl, ?_⟩
  unfold tp_get tp_release
  simp

/-- The ordinal invariant of the spec: the record resident at position i
carries ordinal i, for every position below the count (hence the
ordinals are exactly 0, 1, ..., count-1: strictly increasing and
contiguous). -/
def ordInv (L : TpState) : Prop := ∀ i, i < L.count → (L.space i).count = i

/-- Claim C7: every tp_timer call preserves the ordinal invariant, so in
every reachable log state the resident ordinals are contiguous from 0. -/
theorem tp_ordinal_invariant (id : Int) (seq threadnr : Nat) (timesrepeated : Int)
    (now : Timeval) (sys : Sys) (h : ordInv sys.log) :
    ordInv ((tp_timer id seq threadnr timesrepeated now sys).2).log := by
  by_cases hc : sys.log.count ≥ TP_TIMER_SPACE
  · have he := (tp_timer_log_full id seq threadnr timesrepeated now sys hc).1
    rw [he]
    exact h
  · have hw := tp_timer_write id seq threadnr timesrepeated now sys (Nat.lt_of_not_le hc)
    intro i hi
    rw [hw.2.1] at hi
    by_cases hie : i = sys.log.count
    · subst hie
      exact hw.2.2.2.1.2.2.2.2
    · rw [hw.2.2.1 i hie]
      exact h i (by omega)

/-- Witness for C7 at the freshly initialised state. -/
theorem tp_ordinal_invariant_witness :
    ordInv initSys.log ∧ ordInv ((tp_timer 1 2 3 4 ⟨0, 0⟩ initSys).2).log := by
  have h0 : ordInv initSys.log := fun i hi => absurd hi (Nat.not_lt_zero i)
  exact ⟨h0, tp_ordinal_invariant 1 2 3 4 ⟨0, 0⟩ initSys h0⟩

/-- Running a batch of appends from any state with room for all of them
adds them in order: the count grows by the batch size, slots below the
starting count are untouched, and the i-th call's converted arguments
sit at slot start + i with ordinal start + i. -/
lemma appendCalls_spec (calls : List AppendInput) : ∀ (sys : Sys),
    sys.log.count + calls.length ≤ TP_TIMER_SPACE →
    (appendCalls calls sys).log.count = sys.log.count + calls.length ∧
      (∀ j, j < sys.log.count → (appendCalls calls sys).log.space j = sys.log.space j) ∧
      ∀ i, i < calls.length →
        storedMatches ((appendCalls calls sys).log.space (sys.log.count + i))
          (calls.getD i default) (sys.log.count + i) := by
  induction calls with
  | nil =>
    intro sys _
    exact ⟨by simp [appendCalls], fun j _ => rfl, fun i hi => absurd hi (by simp)⟩
  | cons c rest ih =>
    intro sys h
    have hc : sys.log.count < TP_TIMER_SPACE := by
      simp only [List.length_cons] at h
      omega
    have hw := tp_timer_write c.id c.seq c.threadnr c.timesrepeated c.now sys hc
    have hstep : appendCalls (c :: rest) sys =
        appendCalls rest ((tp_timer c.id c.seq c.threadnr c.timesrepeated c.now sys).2) := rfl
    have hrest := ih ((tp_timer c.id c.seq c.threadnr c.timesrepeated c.now sys).2)
      (by rw [hw.2.1]; simp only [List.length_cons] at h; omega)
    refine ⟨?_, ?_, ?_⟩
    · rw [hstep, hrest.1, hw.2.1]
      simp only [List.length_cons]
      omega
    · intro j hj
      rw [hstep, hrest.2.1 j (by rw [hw.2.1]; omega), hw.2.2.1 j (by omega)]
    · intro i hi
      match i with
      | 0 =>
        rw [hstep, Nat.add_zero,
          hrest.2.1 sys.log.count (by rw [hw.2.1]; omega)]
        exact hw.2.2.2.1
      | Nat.succ k =>
        have hk : k < rest.length := by
          simp only [List.length_cons] at hi
          omega
        have := hrest.2.2 k hk
        rw [hw.2.1] at this
        rw [hstep]
        have harith : sys.log.count + (k + 1) = sys.log.count + 1 + k := by omega
        rw [harith]
        exact this

/-- Claim C3: appending N ≤ capacity records into the empty log yields
snapshot_len = N, and reading any position i < N returns the i-th
appended record with its probe id, sequence, stream id and repeat count
unmodified (the arguments being representable in the C parameter types:
non-negative shorts and 32-bit unsigned ints). -/
theorem tp_append_read_back (calls : List AppendInput)
    (hlen : calls.length ≤ TP_TIMER_SPACE)
    (hvalid : ∀ c ∈ calls, 0 ≤ c.id ∧ c.id < 32768 ∧ c.seq < U32 ∧ c.threadnr < U32 ∧
      0 ≤ c.timesrepeated ∧ c.timesrepeated < 32768) :
    snapshot_len (appendCalls calls initSys) = calls.length ∧
      ∀ i, i < calls.length →
        tp_get (appendCalls calls initSys) i = some ((appendCalls calls initSys).log.space i) ∧
        ((appendCalls calls initSys).log.space i).id = (calls.getD i default).id.toNat ∧
        ((appendCalls calls initSys).log.space i).seq = (calls.getD i default).seq ∧
        ((appendCalls calls initSys).log.space i).threadnr
          = (calls.getD i default).threadnr ∧
        ((appendCalls calls initSys).log.space i).timesrepeated
          = (calls.getD i default).timesrepeated.toNat := by
  have hspec := appendCalls_spec calls initSys (by simpa [initSys] using hlen)
  have hcnt : (appendCalls calls initSys).log.count = calls.length := by
    rw [hspec.1]
    simp [initSys]
  refine ⟨hcnt, ?_⟩
  intro i hi
  have hmem : calls.getD i default ∈ calls := getD_mem_of_lt calls i default hi
  have hv := hvalid _ hmem
  have hst := hspec.2.2 i hi
  rw [show initSys.log.count + i = i from by simp [initSys]] at hst
  obtain ⟨hid, hseq, hth, htr, _⟩ := hst
  refine ⟨?_, ?_, ?_, ?_, ?_⟩
  · unfold tp_get
    rw [if_pos (by omega)]
  · rw [hid, Int.emod_eq_of_lt hv.1 (by have := hv.2.1; unfold U16; omega)]
  · rw [hseq, Nat.mod_eq_of_lt hv.2.2.1]
  · rw [hth, Nat.mod_eq_of_lt hv.2.2.2.1]
  · rw [htr, Int.emod_eq_of_lt hv.2.2.2.2.1
      (by have := hv.2.2.2.2.2; unfold U16; omega)]

/-- Witness for C3: two concrete appends read back unmodified. -/
theorem tp_append_read_back_witness :
    ([⟨3, 7, 9, 2, ⟨0, 0⟩⟩, ⟨13, 5, 6, 1, ⟨0, 0⟩⟩] : List AppendInput).length
        ≤ TP_TIMER_SPACE ∧
      snapshot_len (appendCalls [⟨3, 7, 9, 2, ⟨0, 0⟩⟩, ⟨13, 5, 6, 1, ⟨0, 0⟩⟩] initSys) = 2 :=
  ⟨by decide,
    (tp_append_read_back [⟨3, 7, 9, 2, ⟨0, 0⟩⟩, ⟨13, 5, 6, 1, ⟨0, 0⟩⟩] (by decide)
      (by decide)).1⟩

/-- The 101-append run exhibiting the missing microsecond borrow: 100
appends whose gettimeofday microsecond value is 10 fill the calibration
window with ten-microsecond overhead samples and freeze cal_mean = 10;
the 101st append arrives with a raw microsecond value of 5. -/
def underflowCalls : List AppendInput :=
  List.replicate 100 ⟨1, 0, 0, 0, ⟨0, 10⟩⟩ ++ [⟨1, 0, 0, 0, ⟨0, 5⟩⟩]

/-- The state after the underflow run. -/
def underflowSys : Sys := appendCalls underflowCalls initSys

set_option maxRecDepth 1000000 in
/-- Claim C2 refuted (code bug): tp_timer subtracts the frozen
correction from tv_usec with no borrow, so a record whose raw
microsecond value (5) is below the correction (10) is stored with
ts_usec = -5, violating 0 <= usec < 1000000. -/
theorem tp_usec_not_normalized :
    (underflowSys.log.space 100).ts_usec = -5 ∧
      ¬ (0 ≤ (underflowSys.log.space 100).ts_usec ∧
          (underflowSys.log.space 100).ts_usec < 1000000) := by
  have h : (underflowSys.log.space 100).ts_usec = -5 := by decide
  refine ⟨h, ?_⟩
  rw [h]
  decide

/-! ## Claim theorems: calibration -/

/-- After convergence cal_start is the identity on the calibration state. -/
lemma cal_start_converged (u : Nat) (s : CalState) (h : TP_TIMER_CAL ≤ s.cal_count) :
    cal_start u s = s := by
  unfold cal_start
  rw [if_pos h]

/-- After convergence cal_stop is the identity on the calibration state. -/
lemma cal_stop_converged (u : Nat) (s : CalState) (h : TP_TIMER_CAL ≤ s.cal_count) :
    cal_stop u s = s := by
  unfold cal_stop
  rw [if_pos h]

/-- A non-converging cal_stop call just records the sample and bumps the
counter by one. -/
lemma cal_stop_step (u : Nat) (s : CalState) (h1 : s.cal_count < TP_TIMER_CAL)
    (h2 : s.cal_count + 1 ≠ TP_TIMER_CAL) :
    cal_stop u s =
      { s with
        cal_list := s.cal_list.set s.cal_count (usub64 u s.cal_usec)
        cal_count := s.cal_count + 1 } := by
  unfold cal_stop
  rw [if_neg (Nat.not_le.mpr h1), if_neg h2]

/-- The window-filling cal_stop call bumps the counter to
TP_TIMER_CAL + 1 (converged, once and for all). -/
lemma cal_stop_conv_count (u : Nat) (s : CalState) (h1 : s.cal_count < TP_TIMER_CAL)
    (h2 : s.cal_count + 1 = TP_TIMER_CAL) :
    (cal_stop u s).cal_count = TP_TIMER_CAL + 1 := by
  unfold cal_stop
  rw [if_neg (Nat.not_le.mpr h1), if_pos h2]
  simp [h2]

/-- Feeding fewer samples than would fill the window just counts them. -/
lemma calFeed_count_lt (samples : List Nat) : ∀ (s : CalState),
    s.cal_count + samples.length < TP_TIMER_CAL →
    (calFeed samples s).cal_count = s.cal_count + samples.length := by
  induction samples with
  | nil => intro s _; simp [calFeed]
  | cons u rest ih =>
    intro s h
    simp only [List.length_cons] at h
    have hstep : calFeed (u :: rest) s = calFeed rest (cal_stop u s) := rfl
    rw [hstep, cal_stop_step u s (by omega) (by omega)]
    have hnext := ih
      { s with
        cal_list := s.cal_list.set s.cal_count (usub64 u s.cal_usec)
        cal_count := s.cal_count + 1 } (by simp only []; omega)
    simp only [] at hnext
    rw [hnext]
    simp only [List.length_cons]
    omega

/-- Feeding exactly enough samples to fill the window converges: the
counter lands on TP_TIMER_CAL + 1. -/
lemma calFeed_conv (samples : List Nat) : ∀ (s : CalState),
    s.cal_count < TP_TIMER_CAL →
    s.cal_count + samples.length = TP_TIMER_CAL →
    (calFeed samples s).cal_count = TP_TIMER_CAL + 1 := by
  induction samples with
  | nil =>
    intro s h1 h2
    simp only [List.length_nil, Nat.add_zero] at h2
    omega
  | cons u rest ih =>
    intro s h1 h2
    simp only [List.length_cons] at h2
    have hstep : calFeed (u :: rest) s = calFeed rest (cal_stop u s) := rfl
    by_cases hlast : s.cal_count + 1 = TP_TIMER_CAL
    · have hrest : rest.length = 0 := by omega
      rw [List.length_eq_zero] at hrest
      subst hrest
      rw [hstep]
      exact cal_stop_conv_count u s h1 hlast
    · rw [hstep, cal_stop_step u s h1 hlast]
      exact ih
        { s with
          cal_list := s.cal_list.set s.cal_count (usub64 u s.cal_usec)
          cal_count := s.cal_count + 1 } (by simp only []; omega) (by simp only []; omega)

/-- Claim C8: the calibration state is frozen once converged — cal_start
and cal_stop are then the identity on it — and feeding exactly
TP_TIMER_CAL samples from the initial state converges, while every
proper prefix leaves the state unconverged: the collecting-to-converged
transition happens exactly once, on the window-filling call. -/
theorem cal_converges_once :
    (∀ (s : CalState) (u : Nat), calConverged s → cal_start u s = s ∧ cal_stop u s = s) ∧
      ∀ (samples : List Nat), samples.length = TP_TIMER_CAL →
        calConverged (calFeed samples calInit) ∧
        ∀ k, k < samples.length → ¬ calConverged (calFeed (samples.take k) calInit) := by
  constructor
  · intro s u h
    exact ⟨cal_start_converged u s h, cal_stop_converged u s h⟩
  · intro samples h
    constructor
    · have hc : (calFeed samples calInit).cal_count = TP_TIMER_CAL + 1 :=
        calFeed_conv samples calInit (by simp [calInit, TP_TIMER_CAL]) (by simp [calInit, h])
      unfold calConverged
      omega
    · intro k hk
      have hlen : (samples.take k).length = k := by
        rw [List.length_take]
        omega
      have hc := calFeed_count_lt (samples.take k) calInit
        (by rw [hlen]; simp only [calInit]; omega)
      rw [hlen] at hc
      unfold calConverged
      rw [hc]
      simp only [calInit]
      omega

/-- Witness for C8: one hundred zero samples converge, a 50-sample
prefix does not, and the converged state absorbs further calls. -/
theorem cal_converges_once_witness :
    (List.replicate TP_TIMER_CAL 0).length = TP_TIMER_CAL ∧
      calConverged (calFeed (List.replicate TP_TIMER_CAL 0) calInit) ∧
      ¬ calConverged (calFeed ((List.replicate TP_TIMER_CAL 0).take 50) calInit) :=
  ⟨by decide,
    (cal_converges_once.2 (List.replicate TP_TIMER_CAL 0) (by decide)).1,
    (cal_converges_once.2 (List.replicate TP_TIMER_CAL 0) (by decide)).2 50 (by decide)⟩

set_option maxRecDepth 1000000 in
/-- Claim C4: on the window-filling cal_stop call the frozen correction
is, by the code path itself, the average of entries TRIM_LO..TRIM_HI-1
of the cal_sort-sorted window (the symmetric 5 percent trim of the 100
samples); and on the spec's known sample set 10, 20, ..., 1000 this
equals the independently computed trimmed mean (insertion sort, drop 5
from each end, integer average), which is 505 as manual calculation
gives. -/
theorem cal_trimmed_mean :
    (∀ (s : CalState) (u : Nat), s.cal_count + 1 = TP_TIMER_CAL →
        (cal_stop u s).cal_mean =
          ((s.cal_mean + ((List.range (TRIM_HI - TRIM_LO)).map
            (fun k => (cal_sort (s.cal_list.set s.cal_count (usub64 u s.cal_usec)) 0
              ((TP_TIMER_CAL : Int) - 1) CAL_FUEL).getD (TRIM_LO + k) 0)).sum) % U64) /
            (TRIM_HI - TRIM_LO)) ∧
      (calFeed knownSamples calInit).cal_mean = trimmedMeanSpec knownSamples ∧
      trimmedMeanSpec knownSamples = 505 := by
  refine ⟨?_, by decide, by decide⟩
  intro s u h
  have h1 : ¬ (TP_TIMER_CAL ≤ s.cal_count) := by omega
  unfold cal_stop
  rw [if_neg h1, if_pos h]

/-- A one-sample-short calibration state for the C4 witness. -/
def calNearFull : CalState :=
  { cal_usec := 0, cal_mean := 0, cal_list := List.replicate TP_TIMER_CAL 0,
    cal_count := TP_TIMER_CAL - 1 }

/-- Witness for C4: the general trimmed-average equation instantiated at
the state holding 99 samples. -/
theorem cal_trimmed_mean_witness :
    calNearFull.cal_count + 1 = TP_TIMER_CAL ∧
      (cal_stop 0 calNearFull).cal_mean =
        ((calNearFull.cal_mean + ((List.range (TRIM_HI - TRIM_LO)).map
          (fun k => (cal_sort (calNearFull.cal_list.set calNearFull.cal_count
            (usub64 0 calNearFull.cal_usec)) 0 ((TP_TIMER_CAL : Int) - 1) CAL_FUEL).getD
            (TRIM_LO + k) 0)).sum) % U64) / (TRIM_HI - TRIM_LO) :=
  ⟨by decide, cal_trimmed_mean.1 calNearFull 0 (by decide)⟩

end TpTimer
